import Mathlib

/-!
Verification development for the `modesurvey/cloud` temporal-aggregation
functions (`functions/src/aggregation.ts`, `functions/src/view.ts`).

The embedding is shallow: the transaction bodies of `EventAdded` and
`SlotPassed` become pure functions on an explicit aggregation-document state,
and the view mapper `ConvertTemporalAggregationToPercentages` becomes a pure
function returning rational shares (JavaScript numeric division is modelled
over `ℚ`; at the concrete values appearing below the double-precision results
are exact, and division by zero — which IEEE arithmetic turns into NaN — is
witnessed by proving the divisor itself is zero).

Timestamps are epoch seconds modelled as `Int`; counters are `Nat` (they start
at zero and are only ever incremented). Event categories are the four fixed
keys `WALK`, `WHEELS`, `TRANSIT`, `CAR` used by the documents.
-/

namespace Cloud

/-- The four category keys of a temporal slot. -/
inductive Category where
  | WALK
  | WHEELS
  | TRANSIT
  | CAR
deriving DecidableEq, Repr

/-- `bounds: {start, end}` of a temporal slot, epoch seconds. -/
structure Bounds where
  start : Int
  «end» : Int
deriving DecidableEq, Repr

/-- A temporal slot: closed interval bounds plus one counter per category
(`interface TemporalSlot` in `aggregation.ts`). -/
structure TemporalSlot where
  bounds : Bounds
  WALK : Nat
  WHEELS : Nat
  TRANSIT : Nat
  CAR : Nat
deriving DecidableEq, Repr

/-- An overflow-buffer entry `{type, timestamp}` (`interface Event`). -/
structure Event where
  type : Category
  timestamp : Int
deriving DecidableEq, Repr

/-- `CreateTemporalSlot(start, end)`: given bounds, all counters zero. -/
def CreateTemporalSlot (start «end» : Int) : TemporalSlot :=
  { bounds := { start := start, «end» := «end» }
    WALK := 0
    WHEELS := 0
    TRANSIT := 0
    CAR := 0 }

/-- Read the counter of a slot for a category (`slot[type]`). -/
def getCounter (s : TemporalSlot) : Category → Nat
  | .WALK => s.WALK
  | .WHEELS => s.WHEELS
  | .TRANSIT => s.TRANSIT
  | .CAR => s.CAR

/-- Increment the counter of a slot for a category (`slot[type]++`; the
source only ever receives the four known category strings here). -/
def incrCounter (s : TemporalSlot) : Category → TemporalSlot
  | .WALK => { s with WALK := s.WALK + 1 }
  | .WHEELS => { s with WHEELS := s.WHEELS + 1 }
  | .TRANSIT => { s with TRANSIT := s.TRANSIT + 1 }
  | .CAR => { s with CAR := s.CAR + 1 }

/-- The persisted aggregation document: `{slots, overflow}`. -/
structure AggregationDoc where
  slots : List TemporalSlot
  overflow : List Event
deriving DecidableEq, Repr

/-- Apply `f` to the last element of a list, if any.  This models the
source's in-place mutation of `slots[slots.length - 1]` (in `EventAdded`)
and of the freshly pushed `nextSlot` (in `SlotPassed`), where the mutated
object is the last element of the array whenever it is still in the array. -/
def updateLast (f : TemporalSlot → TemporalSlot) : List TemporalSlot → List TemporalSlot
  | [] => []
  | [s] => [f s]
  | s :: t :: rest => s :: updateLast f (t :: rest)

/-- Dummy slot used only as the default of `List.getLastD` at places where
the list is provably non-empty. -/
def dummySlot : TemporalSlot := CreateTemporalSlot 0 0

/-- Transaction body of `EventAdded` in `aggregation.ts` (lines 52-85).
`timespan` is the configured slot width in minutes, `etype` the event's
`type`, `etimestamp` the event's own payload `timestamp`, and `now` the
ingestion time `event.createTime.seconds`. -/
def EventAddedBody (timespan : Nat) (etype : Category) (etimestamp : Int)
    (now : Int) (agg : AggregationDoc) : AggregationDoc :=
  let timespanSecs : Int := (timespan : Int) * 60
  let slots : List TemporalSlot :=
    if agg.slots.isEmpty then
      agg.slots ++ [CreateTemporalSlot now (now + timespanSecs - 1)]
    else
      agg.slots
  -- `slots` is non-empty here, so the default of `getLastD` is never used.
  let lastBucket := slots.getLastD dummySlot
  if now > lastBucket.bounds.«end» then
    { slots := slots
      overflow := agg.overflow ++ [{ type := etype, timestamp := etimestamp }] }
  else
    { slots := updateLast (fun s => incrCounter s etype) slots
      overflow := agg.overflow }

/-- `EventAdded`'s transaction: throws when the aggregation document does
not exist, otherwise runs the body. -/
def EventAdded (timespan : Nat) (etype : Category) (etimestamp : Int)
    (now : Int) (doc : Option AggregationDoc) : Except String AggregationDoc :=
  match doc with
  | none => Except.error "Document does not exist."
  | some agg => Except.ok (EventAddedBody timespan etype etimestamp now agg)

/-- The `start` of the slot a tick creates: `now` when no slots exist,
`lastSlot.bounds.end + 1` otherwise (`SlotPassed`, lines 106-121). -/
def nextSlotStart (now : Int) (slots : List TemporalSlot) : Int :=
  match slots.getLast? with
  | none => now
  | some lastSlot => lastSlot.bounds.«end» + 1

/-- Drain the overflow buffer into a slot: `for (const event of overflow)
nextSlot[event.type]++`. -/
def drainOverflow (overflow : List Event) (s : TemporalSlot) : TemporalSlot :=
  overflow.foldl (fun acc e => incrCounter acc e.type) s

/-- Transaction body of `SlotPassed` in `aggregation.ts` (lines 95-142):
append a fresh slot continuing the tiling, evict from the front down to
`size` entries, then drain the overflow buffer into the fresh slot (the
source mutates the pushed `nextSlot` object in place; it is the last
element of the array whenever it survived the eviction, so the mutation is
`updateLast`). -/
def SlotPassedBody (timespan size : Nat) (now : Int)
    (agg : AggregationDoc) : AggregationDoc :=
  let timespanSecs : Int := (timespan : Int) * 60
  let start : Int := nextSlotStart now agg.slots
  let «end» : Int := start + timespanSecs - 1
  let nextSlot := CreateTemporalSlot start «end»
  let slots1 := agg.slots ++ [nextSlot]
  let slots2 :=
    if slots1.length > size then
      slots1.drop (slots1.length - size)
    else
      slots1
  { slots := updateLast (drainOverflow agg.overflow) slots2
    overflow := [] }

/-- `SlotPassed`'s transaction: throws when the aggregation document does
not exist, otherwise runs the body. -/
def SlotPassed (timespan size : Nat) (now : Int)
    (doc : Option AggregationDoc) : Except String AggregationDoc :=
  match doc with
  | none => Except.error "Document does not exist."
  | some agg => Except.ok (SlotPassedBody timespan size now agg)

/-- The store's transaction contract (spec §1): a transaction either fully
applies (the body returned a new document) or has no effect (the body
threw). -/
def runTransaction (doc : Option AggregationDoc)
    (body : Option AggregationDoc → Except String AggregationDoc) :
    Option AggregationDoc :=
  match body doc with
  | Except.ok agg => some agg
  | Except.error _ => doc

/-- A sequence of ticks with no interleaved events, at the given
timestamps. -/
def tickSeq (timespan size : Nat) : List Int → AggregationDoc → AggregationDoc
  | [], agg => agg
  | n :: rest, agg => tickSeq timespan size rest (SlotPassedBody timespan size n agg)

/-- `slots[i].end + 1 == slots[i+1].start` for every adjacent pair. -/
def contiguousB : List TemporalSlot → Bool
  | a :: b :: rest => (a.bounds.«end» + 1 == b.bounds.start) && contiguousB (b :: rest)
  | _ => true

/-- The view document written by the percentage view: four shares plus the
`updated` timestamp (milliseconds).  JavaScript's floating-point division is
modelled over `ℚ`. -/
structure ViewUpdate where
  WALK : ℚ
  WHEELS : ℚ
  TRANSIT : ℚ
  CAR : ℚ
  updated : Int
deriving DecidableEq, Repr

/-- The `totals` loop of `ConvertTemporalAggregationToPercentages` in
`view.ts`: starting from `[0, 0, 0, 0]`, add each slot's four counters. -/
def viewTotals (slots : List TemporalSlot) : Nat × Nat × Nat × Nat :=
  slots.foldl
    (fun t slot =>
      (t.1 + slot.WALK, t.2.1 + slot.WHEELS, t.2.2.1 + slot.TRANSIT, t.2.2.2 + slot.CAR))
    (0, 0, 0, 0)

/-- `sum = totals[0] + totals[1] + totals[2] + totals[3]`, the divisor of
every share in the view mapper. -/
def viewSum (slots : List TemporalSlot) : Nat :=
  let t := viewTotals slots
  t.1 + t.2.1 + t.2.2.1 + t.2.2.2

/-- `ConvertTemporalAggregationToPercentages` in `view.ts` (lines 4-26):
per-category totals over all retained slots, each divided by the grand
total, plus a freshly captured wall-clock timestamp `nowMillis`.  There is
no guard for `viewSum slots = 0`; the divisions are performed regardless. -/
def ConvertTemporalAggregationToPercentages (slots : List TemporalSlot)
    (nowMillis : Int) : ViewUpdate :=
  let t := viewTotals slots
  let sum : ℚ := (viewSum slots : ℚ)
  { WALK := (t.1 : ℚ) / sum
    WHEELS := (t.2.1 : ℚ) / sum
    TRANSIT := (t.2.2.1 : ℚ) / sum
    CAR := (t.2.2.2 : ℚ) / sum
    updated := nowMillis }

/-! ## Helper lemmas -/

theorem updateLast_length (f : TemporalSlot → TemporalSlot) :
    ∀ l : List TemporalSlot, (updateLast f l).length = l.length
  | [] => rfl
  | [_] => rfl
  | _ :: t :: rest => by
    simp only [updateLast, List.length_cons]
    exact congrArg (· + 1) (updateLast_length f (t :: rest))

theorem updateLast_dropLast (f : TemporalSlot → TemporalSlot) :
    ∀ l : List TemporalSlot, (updateLast f l).dropLast = l.dropLast
  | [] => rfl
  | [_] => rfl
  | a :: t :: rest => by
    have ih := updateLast_dropLast f (t :: rest)
    have hlen : updateLast f (t :: rest) ≠ [] := by
      intro h
      have := updateLast_length f (t :: rest)
      rw [h] at this
      simp at this
    obtain ⟨u, us, hu⟩ : ∃ u us, updateLast f (t :: rest) = u :: us := by
      cases h : updateLast f (t :: rest) with
      | nil => exact absurd h hlen
      | cons u us => exact ⟨u, us, rfl⟩
    simp only [updateLast, hu, List.dropLast_cons₂]
    rw [hu] at ih
    exact congrArg (a :: ·) ih

theorem getLast?_updateLast (f : TemporalSlot → TemporalSlot) :
    ∀ l : List TemporalSlot, (updateLast f l).getLast? = l.getLast?.map f
  | [] => rfl
  | [_] => rfl
  | _ :: t :: rest => by
    have ih := getLast?_updateLast f (t :: rest)
    have hlen : updateLast f (t :: rest) ≠ [] := by
      intro h
      have := updateLast_length f (t :: rest)
      rw [h] at this
      simp at this
    obtain ⟨u, us, hu⟩ : ∃ u us, updateLast f (t :: rest) = u :: us := by
      cases h : updateLast f (t :: rest) with
      | nil => exact absurd h hlen
      | cons u us => exact ⟨u, us, rfl⟩
    simp only [updateLast]
    rw [hu, List.getLast?_cons_cons, ← hu, ih, List.getLast?_cons_cons]

theorem getCounter_incrCounter (s : TemporalSlot) (t c : Category) :
    getCounter (incrCounter s t) c = getCounter s c + (if c = t then 1 else 0) := by
  cases t <;> cases c <;> simp [getCounter, incrCounter]

theorem bounds_incrCounter (s : TemporalSlot) (t : Category) :
    (incrCounter s t).bounds = s.bounds := by
  cases t <;> rfl

theorem bounds_drainOverflow (evs : List Event) :
    ∀ s : TemporalSlot, (drainOverflow evs s).bounds = s.bounds := by
  induction evs with
  | nil => intro s; rfl
  | cons e rest ih =>
    intro s
    simp only [drainOverflow, List.foldl_cons] at ih ⊢
    rw [ih (incrCounter s e.type), bounds_incrCounter]

theorem getCounter_drainOverflow (c : Category) (evs : List Event) :
    ∀ s : TemporalSlot,
      getCounter (drainOverflow evs s) c =
        getCounter s c + evs.countP (fun e => e.type == c) := by
  induction evs with
  | nil => intro s; simp [drainOverflow]
  | cons e rest ih =>
    intro s
    simp only [drainOverflow, List.foldl_cons] at ih ⊢
    rw [ih (incrCounter s e.type), getCounter_incrCounter, List.countP_cons]
    by_cases h : e.type = c
    · simp [h]
      omega
    · have : (e.type == c) = false := by simp [h]
      simp [this, h]
      intro hc
      exact absurd hc.symm h

theorem contiguousB_tail (a : TemporalSlot) (l : List TemporalSlot)
    (h : contiguousB (a :: l) = true) : contiguousB l = true := by
  cases l with
  | nil => rfl
  | cons b rest =>
    simp only [contiguousB, Bool.and_eq_true] at h
    exact h.2

theorem contiguousB_drop :
    ∀ (d : Nat) (l : List TemporalSlot), contiguousB l = true →
      contiguousB (l.drop d) = true
  | 0, _, h => h
  | _ + 1, [], _ => rfl
  | d + 1, a :: l, h => by
    rw [List.drop_succ_cons]
    exact contiguousB_drop d l (contiguousB_tail a l h)

theorem contiguousB_append_single :
    ∀ (l : List TemporalSlot) (s : TemporalSlot), contiguousB l = true →
      (∀ x ∈ l.getLast?, x.bounds.«end» + 1 = s.bounds.start) →
      contiguousB (l ++ [s]) = true
  | [], s, _, _ => rfl
  | [a], s, _, hlast => by
    have ha : a.bounds.«end» + 1 = s.bounds.start := hlast a (by simp)
    simp [contiguousB, ha]
  | a :: b :: rest, s, h, hlast => by
    simp only [contiguousB, Bool.and_eq_true] at h
    have ih := contiguousB_append_single (b :: rest) s h.2 (by
      intro x hx
      apply hlast
      rwa [List.getLast?_cons_cons])
    simp only [List.cons_append, contiguousB, Bool.and_eq_true]
    refine ⟨h.1, ?_⟩
    simpa using ih

theorem head_bounds_updateLast (f : TemporalSlot → TemporalSlot)
    (hf : ∀ s, (f s).bounds = s.bounds) :
    ∀ (a : TemporalSlot) (l : List TemporalSlot),
      ∃ u us, updateLast f (a :: l) = u :: us ∧ u.bounds = a.bounds
  | a, [] => ⟨f a, [], rfl, hf a⟩
  | a, _ :: _ => ⟨a, _, rfl, rfl⟩

theorem contiguousB_updateLast (f : TemporalSlot → TemporalSlot)
    (hf : ∀ s, (f s).bounds = s.bounds) :
    ∀ l : List TemporalSlot, contiguousB (updateLast f l) = contiguousB l
  | [] => rfl
  | [_] => rfl
  | a :: b :: rest => by
    have ih := contiguousB_updateLast f hf (b :: rest)
    obtain ⟨u, us, hu, hub⟩ := head_bounds_updateLast f hf b rest
    show contiguousB (a :: updateLast f (b :: rest)) = _
    rw [hu]
    rw [hu] at ih
    simp only [contiguousB, hub, ih]

theorem nextSlotStart_of_ne_nil (now : Int) (slots : List TemporalSlot)
    (h : slots ≠ []) :
    nextSlotStart now slots = (slots.getLastD dummySlot).bounds.«end» + 1 := by
  rw [nextSlotStart, List.getLastD_eq_getLast?]
  cases hl : slots.getLast? with
  | none => exact absurd (List.getLast?_eq_none_iff.mp hl) h
  | some x => rfl

theorem tick_slots_eq (timespan size : Nat) (now : Int) (agg : AggregationDoc)
    (hsz : 1 ≤ size) :
    (SlotPassedBody timespan size now agg).slots =
      updateLast (drainOverflow agg.overflow)
        (agg.slots.drop (agg.slots.length + 1 - size) ++
          [CreateTemporalSlot (nextSlotStart now agg.slots)
            (nextSlotStart now agg.slots + (timespan : Int) * 60 - 1)]) := by
  simp only [SlotPassedBody]
  congr 1
  by_cases h : (agg.slots ++ [CreateTemporalSlot (nextSlotStart now agg.slots)
      (nextSlotStart now agg.slots + (timespan : Int) * 60 - 1)]).length > size
  · simp only [h, if_pos]
    rw [List.drop_append_eq_append_drop]
    have hlen : (agg.slots ++ [CreateTemporalSlot (nextSlotStart now agg.slots)
        (nextSlotStart now agg.slots + (timespan : Int) * 60 - 1)]).length =
        agg.slots.length + 1 := by simp
    rw [hlen]
    have h1 : agg.slots.length + 1 - size - agg.slots.length = 0 := by omega
    rw [h1, List.drop_zero]
  · simp only [h, if_neg, not_false_eq_true]
    have hlen : (agg.slots ++ [CreateTemporalSlot (nextSlotStart now agg.slots)
        (nextSlotStart now agg.slots + (timespan : Int) * 60 - 1)]).length =
        agg.slots.length + 1 := by simp
    rw [hlen] at h
    have h1 : agg.slots.length + 1 - size = 0 := by omega
    rw [h1, List.drop_zero]

theorem tick_slots_size_zero (timespan : Nat) (now : Int) (agg : AggregationDoc) :
    (SlotPassedBody timespan 0 now agg).slots = [] := by
  simp only [SlotPassedBody]
  have h : (agg.slots ++ [CreateTemporalSlot (nextSlotStart now agg.slots)
      (nextSlotStart now agg.slots + (timespan : Int) * 60 - 1)]).length > 0 := by simp
  simp only [h, if_pos, Nat.sub_zero, List.drop_length, updateLast]

theorem tick_last_eq (timespan size : Nat) (now : Int) (agg : AggregationDoc)
    (hsz : 1 ≤ size) :
    (SlotPassedBody timespan size now agg).slots.getLast? =
      some (drainOverflow agg.overflow
        (CreateTemporalSlot (nextSlotStart now agg.slots)
          (nextSlotStart now agg.slots + (timespan : Int) * 60 - 1))) := by
  rw [tick_slots_eq timespan size now agg hsz, getLast?_updateLast,
    List.getLast?_concat]
  rfl

theorem tick_preserves_contiguous (timespan size : Nat) (now : Int)
    (agg : AggregationDoc) (h : contiguousB agg.slots = true) :
    contiguousB (SlotPassedBody timespan size now agg).slots = true := by
  simp only [SlotPassedBody]
  rw [contiguousB_updateLast _ (bounds_drainOverflow agg.overflow)]
  have happ : contiguousB (agg.slots ++ [CreateTemporalSlot (nextSlotStart now agg.slots)
      (nextSlotStart now agg.slots + (timespan : Int) * 60 - 1)]) = true := by
    apply contiguousB_append_single agg.slots _ h
    intro x hx
    have hx' : agg.slots.getLast? = some x := hx
    simp only [nextSlotStart, hx', CreateTemporalSlot]
  split
  · exact contiguousB_drop _ _ happ
  · exact happ

theorem tickSeq_preserves_contiguous (timespan size : Nat) :
    ∀ (nows : List Int) (agg : AggregationDoc), contiguousB agg.slots = true →
      contiguousB (tickSeq timespan size nows agg).slots = true
  | [], _, h => h
  | n :: rest, agg, h =>
    tickSeq_preserves_contiguous timespan size rest
      (SlotPassedBody timespan size n agg)
      (tick_preserves_contiguous timespan size n agg h)

theorem getLastD_updateLast (f : TemporalSlot → TemporalSlot)
    (l : List TemporalSlot) (d : TemporalSlot) (h : l ≠ []) :
    (updateLast f l).getLastD d = f (l.getLastD d) := by
  rw [List.getLastD_eq_getLast?, List.getLastD_eq_getLast?, getLast?_updateLast]
  cases hl : l.getLast? with
  | none => exact absurd (List.getLast?_eq_none_iff.mp hl) h
  | some x => rfl

theorem EventAddedBody_in (timespan : Nat) (etype : Category)
    (etimestamp now : Int) (agg : AggregationDoc) (hne : agg.slots ≠ [])
    (hin : now ≤ (agg.slots.getLastD dummySlot).bounds.«end») :
    EventAddedBody timespan etype etimestamp now agg =
      { slots := updateLast (fun s => incrCounter s etype) agg.slots
        overflow := agg.overflow } := by
  simp only [EventAddedBody]
  have hie : agg.slots.isEmpty = false := by
    cases hs : agg.slots with
    | nil => exact absurd hs hne
    | cons a l => rfl
  rw [hie]
  simp only [Bool.false_eq_true, if_neg, not_false_eq_true]
  rw [if_neg (by omega)]

theorem EventAddedBody_out (timespan : Nat) (etype : Category)
    (etimestamp now : Int) (agg : AggregationDoc) (hne : agg.slots ≠ [])
    (hout : now > (agg.slots.getLastD dummySlot).bounds.«end») :
    EventAddedBody timespan etype etimestamp now agg =
      { slots := agg.slots
        overflow := agg.overflow ++ [{ type := etype, timestamp := etimestamp }] } := by
  simp only [EventAddedBody]
  have hie : agg.slots.isEmpty = false := by
    cases hs : agg.slots with
    | nil => exact absurd hs hne
    | cons a l => rfl
  rw [hie]
  simp only [Bool.false_eq_true, if_neg, not_false_eq_true]
  rw [if_pos hout]

/-! ## Claim theorems -/

/-- C2: when the slots array is non-empty and the event's ingestion time
`now` satisfies `now ≤ lastSlot.end`, `EventAdded` increments the counter
for the event's type in the last slot by exactly 1, leaves the overflow
buffer unchanged, and leaves every other slot, the last slot's bounds, and
every other counter of the last slot unchanged. -/
theorem EventAdded_in_window (timespan : Nat) (etype : Category)
    (etimestamp now : Int) (agg : AggregationDoc) (hne : agg.slots ≠ [])
    (hin : now ≤ (agg.slots.getLastD dummySlot).bounds.«end») :
    (EventAddedBody timespan etype etimestamp now agg).overflow = agg.overflow ∧
    (EventAddedBody timespan etype etimestamp now agg).slots.length = agg.slots.length ∧
    (EventAddedBody timespan etype etimestamp now agg).slots.dropLast = agg.slots.dropLast ∧
    ((EventAddedBody timespan etype etimestamp now agg).slots.getLastD dummySlot).bounds =
      (agg.slots.getLastD dummySlot).bounds ∧
    ∀ c, getCounter ((EventAddedBody timespan etype etimestamp now agg).slots.getLastD dummySlot) c =
      getCounter (agg.slots.getLastD dummySlot) c + (if c = etype then 1 else 0) := by
  rw [EventAddedBody_in timespan etype etimestamp now agg hne hin]
  refine ⟨rfl, updateLast_length _ _, updateLast_dropLast _ _, ?_, ?_⟩
  · rw [getLastD_updateLast _ _ _ hne, bounds_incrCounter]
  · intro c
    rw [getLastD_updateLast _ _ _ hne, getCounter_incrCounter]

/-- Witness for C2: a document with one slot `[0, 3599]` and an in-window
`WALK` event at `now = 100`. -/
theorem EventAdded_in_window_witness :
    ((⟨[CreateTemporalSlot 0 3599], []⟩ : AggregationDoc).slots ≠ [] ∧
      (100 : Int) ≤
        ((⟨[CreateTemporalSlot 0 3599], []⟩ : AggregationDoc).slots.getLastD dummySlot).bounds.«end») ∧
    ((EventAddedBody 60 Category.WALK 100 100 ⟨[CreateTemporalSlot 0 3599], []⟩).overflow =
        (⟨[CreateTemporalSlot 0 3599], []⟩ : AggregationDoc).overflow ∧
      (EventAddedBody 60 Category.WALK 100 100 ⟨[CreateTemporalSlot 0 3599], []⟩).slots.length =
        (⟨[CreateTemporalSlot 0 3599], []⟩ : AggregationDoc).slots.length ∧
      (EventAddedBody 60 Category.WALK 100 100 ⟨[CreateTemporalSlot 0 3599], []⟩).slots.dropLast =
        (⟨[CreateTemporalSlot 0 3599], []⟩ : AggregationDoc).slots.dropLast ∧
      ((EventAddedBody 60 Category.WALK 100 100 ⟨[CreateTemporalSlot 0 3599], []⟩).slots.getLastD dummySlot).bounds =
        ((⟨[CreateTemporalSlot 0 3599], []⟩ : AggregationDoc).slots.getLastD dummySlot).bounds ∧
      ∀ c, getCounter ((EventAddedBody 60 Category.WALK 100 100 ⟨[CreateTemporalSlot 0 3599], []⟩).slots.getLastD dummySlot) c =
        getCounter ((⟨[CreateTemporalSlot 0 3599], []⟩ : AggregationDoc).slots.getLastD dummySlot) c +
          (if c = Category.WALK then 1 else 0)) :=
  ⟨⟨by decide, by decide⟩,
    EventAdded_in_window 60 Category.WALK 100 100 ⟨[CreateTemporalSlot 0 3599], []⟩
      (by decide) (by decide)⟩

/-- C3: when the slots array is non-empty and the event's ingestion time
`now` satisfies `now > lastSlot.end`, `EventAdded` appends exactly one
entry `{type, timestamp}` to the overflow buffer — with the event's own
payload timestamp, not the ingestion time used for the comparison — and
changes no slot. -/
theorem EventAdded_out_of_window (timespan : Nat) (etype : Category)
    (etimestamp now : Int) (agg : AggregationDoc) (hne : agg.slots ≠ [])
    (hout : now > (agg.slots.getLastD dummySlot).bounds.«end») :
    (EventAddedBody timespan etype etimestamp now agg).overflow =
      agg.overflow ++ [{ type := etype, timestamp := etimestamp }] ∧
    (EventAddedBody timespan etype etimestamp now agg).slots = agg.slots := by
  rw [EventAddedBody_out timespan etype etimestamp now agg hne hout]
  exact ⟨rfl, rfl⟩

/-- Witness for C3: a document with one slot `[0, 3599]` and an event
ingested at `now = 4000` (out of window) whose payload timestamp is `7`. -/
theorem EventAdded_out_of_window_witness :
    ((⟨[CreateTemporalSlot 0 3599], []⟩ : AggregationDoc).slots ≠ [] ∧
      (4000 : Int) >
        ((⟨[CreateTemporalSlot 0 3599], []⟩ : AggregationDoc).slots.getLastD dummySlot).bounds.«end») ∧
    ((EventAddedBody 60 Category.CAR 7 4000 ⟨[CreateTemporalSlot 0 3599], []⟩).overflow =
        (⟨[CreateTemporalSlot 0 3599], []⟩ : AggregationDoc).overflow ++
          [{ type := Category.CAR, timestamp := 7 }] ∧
      (EventAddedBody 60 Category.CAR 7 4000 ⟨[CreateTemporalSlot 0 3599], []⟩).slots =
        (⟨[CreateTemporalSlot 0 3599], []⟩ : AggregationDoc).slots) :=
  ⟨⟨by decide, by decide⟩,
    EventAdded_out_of_window 60 Category.CAR 7 4000 ⟨[CreateTemporalSlot 0 3599], []⟩
      (by decide) (by decide)⟩

/-- C6: on a document with no slots, `EventAdded` creates a first slot with
bounds `[now, now + timespan*60 - 1]` (for any positive configured
timespan), counts the event in it — its category counter becomes 1, every
other counter 0 — and leaves the overflow buffer unchanged. -/
theorem EventAdded_bootstrap (timespan : Nat) (etype : Category)
    (etimestamp now : Int) (agg : AggregationDoc) (hempty : agg.slots = [])
    (hts : 1 ≤ timespan) :
    (EventAddedBody timespan etype etimestamp now agg).overflow = agg.overflow ∧
    (EventAddedBody timespan etype etimestamp now agg).slots.length = 1 ∧
    ((EventAddedBody timespan etype etimestamp now agg).slots.getLastD dummySlot).bounds.start = now ∧
    ((EventAddedBody timespan etype etimestamp now agg).slots.getLastD dummySlot).bounds.«end» =
      now + (timespan : Int) * 60 - 1 ∧
    ∀ c, getCounter ((EventAddedBody timespan etype etimestamp now agg).slots.getLastD dummySlot) c =
      if c = etype then 1 else 0 := by
  have hred : EventAddedBody timespan etype etimestamp now agg =
      { slots := [incrCounter (CreateTemporalSlot now (now + (timespan : Int) * 60 - 1)) etype]
        overflow := agg.overflow } := by
    simp only [EventAddedBody, hempty]
    rw [if_neg (by simp [CreateTemporalSlot]; omega)]
    rfl
  rw [hred]
  have hlast :
      ([incrCounter (CreateTemporalSlot now (now + (timespan : Int) * 60 - 1)) etype] :
        List TemporalSlot).getLastD dummySlot =
      incrCounter (CreateTemporalSlot now (now + (timespan : Int) * 60 - 1)) etype := rfl
  refine ⟨rfl, rfl, ?_, ?_, ?_⟩
  · rw [hlast, bounds_incrCounter]; rfl
  · rw [hlast, bounds_incrCounter]; rfl
  · intro c
    rw [hlast, getCounter_incrCounter]
    cases c <;> simp [getCounter, CreateTemporalSlot]

/-- Witness for C6: an empty document, timespan 60 minutes, a `TRANSIT`
event ingested at `now = 42`. -/
theorem EventAdded_bootstrap_witness :
    ((⟨[], []⟩ : AggregationDoc).slots = [] ∧ (1 : Nat) ≤ 60) ∧
    ((EventAddedBody 60 Category.TRANSIT 41 42 ⟨[], []⟩).overflow =
        (⟨[], []⟩ : AggregationDoc).overflow ∧
      (EventAddedBody 60 Category.TRANSIT 41 42 ⟨[], []⟩).slots.length = 1 ∧
      ((EventAddedBody 60 Category.TRANSIT 41 42 ⟨[], []⟩).slots.getLastD dummySlot).bounds.start = 42 ∧
      ((EventAddedBody 60 Category.TRANSIT 41 42 ⟨[], []⟩).slots.getLastD dummySlot).bounds.«end» =
        42 + (60 : Int) * 60 - 1 ∧
      ∀ c, getCounter ((EventAddedBody 60 Category.TRANSIT 41 42 ⟨[], []⟩).slots.getLastD dummySlot) c =
        if c = Category.TRANSIT then 1 else 0) :=
  ⟨⟨by decide, by decide⟩,
    EventAdded_bootstrap 60 Category.TRANSIT 41 42 ⟨[], []⟩ (by decide) (by decide)⟩

/-- C1: on a tick over a non-empty slots array (with at least one retained
slot configured), the newly appended slot — the last retained one — has
`start = lastSlot.end + 1` and `end = start + timespan*60 - 1`; and after
any sequence of ticks with no events, a contiguous slots array stays
contiguous: `slots[i].end + 1 == slots[i+1].start` for every adjacent
pair. -/
theorem SlotPassed_contiguous_tiling (timespan size : Nat) (now : Int)
    (agg : AggregationDoc) (hsz : 1 ≤ size) (hne : agg.slots ≠ []) :
    (∃ s, (SlotPassedBody timespan size now agg).slots.getLast? = some s ∧
      s.bounds.start = (agg.slots.getLastD dummySlot).bounds.«end» + 1 ∧
      s.bounds.«end» = s.bounds.start + (timespan : Int) * 60 - 1) ∧
    ∀ nows, contiguousB agg.slots = true →
      contiguousB (tickSeq timespan size nows agg).slots = true := by
  constructor
  · refine ⟨drainOverflow agg.overflow
      (CreateTemporalSlot (nextSlotStart now agg.slots)
        (nextSlotStart now agg.slots + (timespan : Int) * 60 - 1)),
      tick_last_eq timespan size now agg hsz, ?_, ?_⟩
    · rw [bounds_drainOverflow]
      show nextSlotStart now agg.slots = _
      exact nextSlotStart_of_ne_nil now agg.slots hne
    · rw [bounds_drainOverflow]
      rfl
  · intro nows hc
    exact tickSeq_preserves_contiguous timespan size nows agg hc

/-- Witness for C1: one retained slot `[0, 3599]`, timespan 60 minutes,
size 3, tick at `now = 5000`. -/
theorem SlotPassed_contiguous_tiling_witness :
    ((1 : Nat) ≤ 3 ∧ (⟨[CreateTemporalSlot 0 3599], []⟩ : AggregationDoc).slots ≠ []) ∧
    ((∃ s, (SlotPassedBody 60 3 5000 ⟨[CreateTemporalSlot 0 3599], []⟩).slots.getLast? = some s ∧
        s.bounds.start =
          ((⟨[CreateTemporalSlot 0 3599], []⟩ : AggregationDoc).slots.getLastD dummySlot).bounds.«end» + 1 ∧
        s.bounds.«end» = s.bounds.start + (60 : Int) * 60 - 1) ∧
      ∀ nows, contiguousB (⟨[CreateTemporalSlot 0 3599], []⟩ : AggregationDoc).slots = true →
        contiguousB (tickSeq 60 3 nows ⟨[CreateTemporalSlot 0 3599], []⟩).slots = true) :=
  ⟨⟨by decide, by decide⟩,
    SlotPassed_contiguous_tiling 60 3 5000 ⟨[CreateTemporalSlot 0 3599], []⟩
      (by decide) (by decide)⟩

/-- C4: after any tick the slots array has length `min (oldLength + 1) size`
— in particular at most `size` — and the retained old slots are exactly the
original array with `oldLength + 1 - size` entries removed from the front
(so eviction removes from the oldest end, possibly several at once, and
restores the length to exactly `size` whenever the pre-eviction length
exceeded it). -/
theorem SlotPassed_eviction_bound (timespan size : Nat) (now : Int)
    (agg : AggregationDoc) :
    (SlotPassedBody timespan size now agg).slots.length =
      min (agg.slots.length + 1) size ∧
    (SlotPassedBody timespan size now agg).slots.length ≤ size ∧
    (SlotPassedBody timespan size now agg).slots.dropLast =
      agg.slots.drop (agg.slots.length + 1 - size) := by
  rcases Nat.eq_zero_or_pos size with h0 | hpos
  · subst h0
    rw [tick_slots_size_zero]
    refine ⟨by simp, Nat.zero_le _, ?_⟩
    rw [List.drop_eq_nil_of_le (by omega)]
    rfl
  · rw [tick_slots_eq timespan size now agg hpos]
    refine ⟨?_, ?_, ?_⟩
    · rw [updateLast_length, List.length_append, List.length_drop]
      simp only [List.length_singleton]
      omega
    · rw [updateLast_length, List.length_append, List.length_drop]
      simp only [List.length_singleton]
      omega
    · rw [updateLast_dropLast, List.dropLast_concat]

/-- C5: after any tick (with at least one retained slot configured) the
overflow buffer is empty and, for each category, the newly created slot —
the last retained one — holds exactly the number of previously buffered
overflow events of that category, with no reference to the buffered
events' timestamps or to the new slot's bounds. -/
theorem SlotPassed_drains_overflow (timespan size : Nat) (now : Int)
    (agg : AggregationDoc) (hsz : 1 ≤ size) :
    (SlotPassedBody timespan size now agg).overflow = [] ∧
    ∃ s, (SlotPassedBody timespan size now agg).slots.getLast? = some s ∧
      ∀ c, getCounter s c = agg.overflow.countP (fun e => e.type == c) := by
  refine ⟨rfl, drainOverflow agg.overflow
    (CreateTemporalSlot (nextSlotStart now agg.slots)
      (nextSlotStart now agg.slots + (timespan : Int) * 60 - 1)),
    tick_last_eq timespan size now agg hsz, ?_⟩
  intro c
  rw [getCounter_drainOverflow]
  have hzero : getCounter (CreateTemporalSlot (nextSlotStart now agg.slots)
      (nextSlotStart now agg.slots + (timespan : Int) * 60 - 1)) c = 0 := by
    cases c <;> rfl
  rw [hzero, Nat.zero_add]

/-- Witness for C5: one retained slot, overflow `[WALK, CAR, WALK]`, tick
at `now = 5000`; the new slot counts WALK twice and CAR once. -/
theorem SlotPassed_drains_overflow_witness :
    (1 : Nat) ≤ 3 ∧
    ((SlotPassedBody 60 3 5000
        ⟨[CreateTemporalSlot 0 3599],
          [⟨Category.WALK, 5⟩, ⟨Category.CAR, 6⟩, ⟨Category.WALK, 7⟩]⟩).overflow = [] ∧
      ∃ s, (SlotPassedBody 60 3 5000
          ⟨[CreateTemporalSlot 0 3599],
            [⟨Category.WALK, 5⟩, ⟨Category.CAR, 6⟩, ⟨Category.WALK, 7⟩]⟩).slots.getLast? = some s ∧
        ∀ c, getCounter s c =
          ([⟨Category.WALK, 5⟩, ⟨Category.CAR, 6⟩, ⟨Category.WALK, 7⟩] : List Event).countP
            (fun e => e.type == c)) :=
  ⟨by decide,
    SlotPassed_drains_overflow 60 3 5000
      ⟨[CreateTemporalSlot 0 3599],
        [⟨Category.WALK, 5⟩, ⟨Category.CAR, 6⟩, ⟨Category.WALK, 7⟩]⟩ (by decide)⟩

/-- C10: with at least one retained slot configured, the slot a tick
creates is never evicted by that same tick: the last retained slot after
the tick is exactly the freshly created slot with the drained overflow
counts, so the drained counts live in a slot present in the persisted
array. -/
theorem SlotPassed_new_slot_retained (timespan size : Nat) (now : Int)
    (agg : AggregationDoc) (hsz : 1 ≤ size) :
    (SlotPassedBody timespan size now agg).slots.getLast? =
      some (drainOverflow agg.overflow
        (CreateTemporalSlot (nextSlotStart now agg.slots)
          (nextSlotStart now agg.slots + (timespan : Int) * 60 - 1))) :=
  tick_last_eq timespan size now agg hsz

/-- Witness for C10: an aggregation whose slots would overflow the bound
(`size = 1`, one retained slot, so the old slot is evicted) still retains
the freshly created slot, with its drained overflow count. -/
theorem SlotPassed_new_slot_retained_witness :
    (1 : Nat) ≤ 1 ∧
    (SlotPassedBody 60 1 5000
        ⟨[CreateTemporalSlot 0 3599], [⟨Category.WHEELS, 9⟩]⟩).slots.getLast? =
      some (drainOverflow [⟨Category.WHEELS, 9⟩]
        (CreateTemporalSlot
          (nextSlotStart 5000 [CreateTemporalSlot 0 3599])
          (nextSlotStart 5000 [CreateTemporalSlot 0 3599] + (60 : Int) * 60 - 1))) :=
  ⟨by decide,
    SlotPassed_new_slot_retained 60 1 5000
      ⟨[CreateTemporalSlot 0 3599], [⟨Category.WHEELS, 9⟩]⟩ (by decide)⟩

/-- C7: both operations fail with an error when the aggregation document
does not exist, and the failed transaction leaves the stored document
unchanged (still absent — no partial write). -/
theorem missing_document_aborts (timespan size : Nat) (etype : Category)
    (etimestamp now tick : Int) :
    EventAdded timespan etype etimestamp now none =
      Except.error "Document does not exist." ∧
    SlotPassed timespan size tick none =
      Except.error "Document does not exist." ∧
    runTransaction none (EventAdded timespan etype etimestamp now) = none ∧
    runTransaction none (SlotPassed timespan size tick) = none :=
  ⟨rfl, rfl, rfl, rfl⟩

theorem viewTotals_foldl_all_zero :
    ∀ (slots : List TemporalSlot),
      (∀ s ∈ slots, s.WALK = 0 ∧ s.WHEELS = 0 ∧ s.TRANSIT = 0 ∧ s.CAR = 0) →
      ∀ a b c d : Nat,
        slots.foldl
          (fun t slot =>
            (t.1 + slot.WALK, t.2.1 + slot.WHEELS, t.2.2.1 + slot.TRANSIT, t.2.2.2 + slot.CAR))
          (a, b, c, d) = (a, b, c, d)
  | [], _, _, _, _, _ => rfl
  | s :: rest, hz, a, b, c, d => by
    have hs : s.WALK = 0 ∧ s.WHEELS = 0 ∧ s.TRANSIT = 0 ∧ s.CAR = 0 := hz s (by simp)
    have ih := viewTotals_foldl_all_zero rest
      (fun x hx => hz x (List.mem_cons_of_mem s hx)) a b c d
    simp only [List.foldl_cons]
    rw [hs.1, hs.2.1, hs.2.2.1, hs.2.2.2]
    simpa using ih

/-- C8: on one retained slot `{WALK: 3, WHEELS: 1, TRANSIT: 0, CAR: 0}`
(any bounds), the default view mapper yields the normalized shares
`{WALK: 3/4, WHEELS: 1/4, TRANSIT: 0, CAR: 0}`, and stamps the view with
the invocation's wall-clock time, which is strictly greater than any
earlier timestamp. -/
theorem percentage_view_example (b : Bounds) (nowMillis prev : Int)
    (hlt : prev < nowMillis) :
    (ConvertTemporalAggregationToPercentages [⟨b, 3, 1, 0, 0⟩] nowMillis).WALK = 3 / 4 ∧
    (ConvertTemporalAggregationToPercentages [⟨b, 3, 1, 0, 0⟩] nowMillis).WHEELS = 1 / 4 ∧
    (ConvertTemporalAggregationToPercentages [⟨b, 3, 1, 0, 0⟩] nowMillis).TRANSIT = 0 ∧
    (ConvertTemporalAggregationToPercentages [⟨b, 3, 1, 0, 0⟩] nowMillis).CAR = 0 ∧
    prev < (ConvertTemporalAggregationToPercentages [⟨b, 3, 1, 0, 0⟩] nowMillis).updated := by
  have ht : viewTotals [⟨b, 3, 1, 0, 0⟩] = (3, 1, 0, 0) := rfl
  have hs : viewSum [⟨b, 3, 1, 0, 0⟩] = 4 := rfl
  refine ⟨?_, ?_, ?_, ?_, hlt⟩ <;>
    simp [ConvertTemporalAggregationToPercentages, ht, hs]

/-- Witness for C8: bounds `[0, 3599]`, previous timestamp 10, view tick at
wall-clock time 11. -/
theorem percentage_view_example_witness :
    (10 : Int) < 11 ∧
    ((ConvertTemporalAggregationToPercentages [⟨⟨0, 3599⟩, 3, 1, 0, 0⟩] 11).WALK = 3 / 4 ∧
      (ConvertTemporalAggregationToPercentages [⟨⟨0, 3599⟩, 3, 1, 0, 0⟩] 11).WHEELS = 1 / 4 ∧
      (ConvertTemporalAggregationToPercentages [⟨⟨0, 3599⟩, 3, 1, 0, 0⟩] 11).TRANSIT = 0 ∧
      (ConvertTemporalAggregationToPercentages [⟨⟨0, 3599⟩, 3, 1, 0, 0⟩] 11).CAR = 0 ∧
      (10 : Int) < (ConvertTemporalAggregationToPercentages [⟨⟨0, 3599⟩, 3, 1, 0, 0⟩] 11).updated) :=
  ⟨by decide, percentage_view_example ⟨0, 3599⟩ 11 10 (by decide)⟩

/-- C9: whenever every retained slot has all four counters zero — the
empty-slots case included — the view mapper's grand total is zero, so each
per-category share is a division with a zero divisor; the mapper has no
guard for this case (in this `ℚ` embedding the convention `q / 0 = 0`
makes every share 0, so the four shares do not even sum to 1 — under
JavaScript's IEEE arithmetic they are NaN). -/
theorem view_division_by_zero (slots : List TemporalSlot)
    (hz : ∀ s ∈ slots, s.WALK = 0 ∧ s.WHEELS = 0 ∧ s.TRANSIT = 0 ∧ s.CAR = 0) :
    viewSum slots = 0 ∧
    ∀ nowMillis,
      (ConvertTemporalAggregationToPercentages slots nowMillis).WALK = 0 ∧
      (ConvertTemporalAggregationToPercentages slots nowMillis).WHEELS = 0 ∧
      (ConvertTemporalAggregationToPercentages slots nowMillis).TRANSIT = 0 ∧
      (ConvertTemporalAggregationToPercentages slots nowMillis).CAR = 0 ∧
      (ConvertTemporalAggregationToPercentages slots nowMillis).WALK +
        (ConvertTemporalAggregationToPercentages slots nowMillis).WHEELS +
        (ConvertTemporalAggregationToPercentages slots nowMillis).TRANSIT +
        (ConvertTemporalAggregationToPercentages slots nowMillis).CAR ≠ 1 := by
  have ht : viewTotals slots = (0, 0, 0, 0) := viewTotals_foldl_all_zero slots hz 0 0 0 0
  have hsum : viewSum slots = 0 := by rw [viewSum, ht]; rfl
  refine ⟨hsum, ?_⟩
  intro nowMillis
  refine ⟨?_, ?_, ?_, ?_, ?_⟩ <;>
    simp [ConvertTemporalAggregationToPercentages, ht]

/-- Witness for C9: the empty slots array (no retained slots at all). -/
theorem view_division_by_zero_witness :
    (∀ s ∈ ([] : List TemporalSlot),
      s.WALK = 0 ∧ s.WHEELS = 0 ∧ s.TRANSIT = 0 ∧ s.CAR = 0) ∧
    (viewSum [] = 0 ∧
      ∀ nowMillis,
        (ConvertTemporalAggregationToPercentages [] nowMillis).WALK = 0 ∧
        (ConvertTemporalAggregationToPercentages [] nowMillis).WHEELS = 0 ∧
        (ConvertTemporalAggregationToPercentages [] nowMillis).TRANSIT = 0 ∧
        (ConvertTemporalAggregationToPercentages [] nowMillis).CAR = 0 ∧
        (ConvertTemporalAggregationToPercentages [] nowMillis).WALK +
          (ConvertTemporalAggregationToPercentages [] nowMillis).WHEELS +
          (ConvertTemporalAggregationToPercentages [] nowMillis).TRANSIT +
          (ConvertTemporalAggregationToPercentages [] nowMillis).CAR ≠ 1) :=
  ⟨by simp, view_division_by_zero [] (by simp)⟩

end Cloud
